import Mathlib

/-!
Verification of the federated search subsystem of `nostr-code-snippets`.

The definitions below are a shallow embedding of `src/helpers/search.ts`
(the search orchestrator, capability prober and substring local match
engine) and of the snippet event accessors (`getSnippetTitle`,
`getSnippetTags`, ...).  Network effects — the per-branch relay queries,
the capability probe, and relay-list resolution — are modelled as oracle
fields of a `SearchEnv` record, following the external collaborator
interfaces given for the relay-pool library: a probe yields a capability
descriptor or nothing (timeout / error / malformed response), and a
bounded relay query yields a list of events (empty on timeout).
-/

/-- A Nostr event (`NostrEvent` from nostr-tools): identifier (content
hash), author pubkey, creation timestamp in epoch seconds, kind, tag list
(each tag an ordered list of strings, first element the tag name), content
body and signature. -/
structure NostrEvent where
  id : String
  pubkey : String
  created_at : Nat
  kind : Nat
  tags : List (List String)
  content : String
  sig : String
  deriving DecidableEq

/-- Relay NIP-11 information document, reduced to the field the prober
reads (`supported_nips`, optional in the document). -/
structure RelayInfo where
  supported_nips : Option (List Nat)
  deriving DecidableEq

/-- The search filter value object (`SearchFilters` in search.ts).
Optional fields are `Option`; `limit` is a count. -/
structure SearchFilters where
  query : String
  tags : Option (List String)
  language : Option String
  author : Option String
  limit : Option Nat
  deriving DecidableEq

/-- The search result (`SearchResult` in search.ts): matched events plus
provenance metadata. -/
structure SearchResult where
  events : List NostrEvent
  total : Nat
  searchedRelays : List String
  nip50SupportedRelays : List String
  deriving DecidableEq

/-- Oracle environment standing for the network-effect collaborators used
by one `searchCodeSnippets` invocation:
* `userSearchRelays` — result of the user search-relay lookup inside
  `getSearchRelays` (`[]` when the user has none or the lookup failed,
  which the source catches and logs);
* `readRelays` — result of `getReadRelays` (its own failures already
  degrade to config relays inside `nostr.ts`);
* `relayInfo` — outcome of the capability probe for a relay address:
  `none` for any failure to retrieve the document (network error,
  malformed response, timeout — the `endWith(null)` path), `some info`
  for a retrieved document;
* `nip50QueryResult` — events delivered by the capable-branch relay
  query (`[]` on timeout, per the bounded-wait pipeline);
* `fallbackQueryResult` — events delivered by the fallback-branch
  structural query before local matching (`[]` on timeout);
* `normalizePubkey` — `normalizeToPubkey` from applesauce helpers:
  `none` models the throw on a malformed author identifier. -/
structure SearchEnv where
  userSearchRelays : List String
  readRelays : List String
  relayInfo : String → Option RelayInfo
  nip50QueryResult : List NostrEvent
  fallbackQueryResult : List NostrEvent
  normalizePubkey : String → Option String

/-- JavaScript string truthiness for an optional string: `undefined` and
`""` are falsy. -/
def jsTruthyStr : Option String → Bool
  | some s => !s.isEmpty
  | none => false

/-- JavaScript `haystack.includes(needle)` on already-prepared strings. -/
def jsIncludes (haystack needle : String) : Bool :=
  decide (needle.toList <:+: haystack.toList)

/-- JavaScript `toLowerCase()`: lowercase every character (the same
character mapping as core `String.toLower`, written so that it reduces in
the kernel). -/
def jsToLower (s : String) : String := String.mk (s.data.map Char.toLower)

/-- `DEFAULT_SEARCH_RELAYS` from `src/helpers/const.ts`. -/
def DEFAULT_SEARCH_RELAYS : List String :=
  ["wss://relay.nostr.band", "wss://search.nos.today",
   "wss://relay.noswhere.com", "wss://nostr.wine"]

/-- `getTagValue(event, name)` (applesauce helper):
`event.tags.find((t) => t[0] === name)?.[1]`. -/
def getTagValue (e : NostrEvent) (name : String) : Option String :=
  (e.tags.find? (fun t => t.head? == some name)).bind (fun t => t[1]?)

/-- `supportsNIP50` from search.ts:
`relayInfo.supported_nips?.includes(50) ?? false`. -/
def supportsNIP50 (info : RelayInfo) : Bool :=
  match info.supported_nips with
  | some nips => nips.contains 50
  | none => false

/-- `getSearchRelays` from search.ts, with the user-relay lookup already
resolved by the oracle: user search relays when that lookup produced a
nonempty list, otherwise the hardcoded defaults. -/
def getSearchRelays (env : SearchEnv) : List String :=
  if env.userSearchRelays.isEmpty then DEFAULT_SEARCH_RELAYS
  else env.userSearchRelays

/-- Append a relay address unless already present (one step of relay-set
deduplication, first-seen order preserved). -/
def addUnique (acc : List String) (r : String) : List String :=
  if acc.contains r then acc else acc ++ [r]

/-- `mergeRelaySets` (applesauce helper): union of the source lists,
deduplicated preserving first-seen order.  URL normalization is the
identity here; all addresses used in this development are already in
canonical form. -/
def mergeRelaySets (sources : List (List String)) : List String :=
  (sources.foldr (· ++ ·) []).foldl addUnique []

/-- Probe outcome for one relay: the body of the per-relay check inside
`filterNIP50SupportedRelays` — capable iff a document was retrieved and
its `supported_nips` contains 50; any retrieval failure is `none` and
hence not capable. -/
def relayIsCapable (env : SearchEnv) (relay : String) : Bool :=
  match env.relayInfo relay with
  | some info => supportsNIP50 info
  | none => false

/-- `filterNIP50SupportedRelays` from search.ts.  The source pushes into
the result array in probe-completion order; only the membership of the
result is used downstream (querying and the complement filter), so the
model keeps input order. -/
def filterNIP50SupportedRelays (env : SearchEnv) (relays : List String) :
    List String :=
  relays.filter (relayIsCapable env)

/-- Substring match predicate of the fallback local match engine, from
`fallbackSearchEvents` in search.ts: the lowercased query must occur in
the lowercased content, in the lowercased first `title` tag value
(`?? ""`), or in one of the lowercased `t` tag values (missing value
treated as `""`). -/
def eventMatchesQuery (q : String) (e : NostrEvent) : Bool :=
  let query := jsToLower q
  let content := jsToLower e.content
  let title := ((getTagValue e "title").map jsToLower).getD ""
  let tTagValues := (e.tags.filter (fun t => t.head? == some "t")).map
    (fun t => ((t[1]?).map jsToLower).getD "")
  jsIncludes content query || jsIncludes title query ||
    tTagValues.any (fun tag => jsIncludes tag query)

/-- Client-side filtering stage of `fallbackSearchEvents` (search.ts):
keep the queried events matching the free-text query.  The relay query
itself is the oracle's `fallbackQueryResult`; the author re-normalization
inside the source operates on the already-normalized key and cannot
fail. -/
def fallbackSearchEvents (filters : SearchFilters)
    (queriedEvents : List NostrEvent) : List NostrEvent :=
  queriedEvents.filter (fun e => eventMatchesQuery filters.query e)

/-- One step of `new Map(allEvents.map((e) => [e.id, e]))`: `Map.set`
keeps the first-insertion position of a key but overwrites its value, so
a duplicate identifier replaces the stored event in place. -/
def insertById (acc : List NostrEvent) (e : NostrEvent) : List NostrEvent :=
  if acc.any (fun x => x.id == e.id) then
    acc.map (fun x => if x.id == e.id then e else x)
  else acc ++ [e]

/-- `Array.from(new Map(allEvents.map((e) => [e.id, e])).values())` from
search.ts: deduplicate by identifier with Map semantics (first-insertion
position, last-inserted value). -/
def dedupById (events : List NostrEvent) : List NostrEvent :=
  events.foldl insertById []

/-- Insert an event into a newest-first sorted list, before the first
element not newer than it (stable descending insertion). -/
def insertByNewest (e : NostrEvent) : List NostrEvent → List NostrEvent
  | [] => [e]
  | x :: xs =>
    if x.created_at ≤ e.created_at then e :: x :: xs
    else x :: insertByNewest e xs

/-- `uniqueEvents.sort((a, b) => b.created_at - a.created_at)` from
search.ts: stable sort, newest first. -/
def sortByNewestFirst (events : List NostrEvent) : List NostrEvent :=
  events.foldr insertByNewest []

/-- `filters.limit ? uniqueEvents.slice(0, filters.limit) : uniqueEvents`
from search.ts: a missing limit and the falsy limit `0` both skip
truncation. -/
def applyLimit (limit : Option Nat) (events : List NostrEvent) :
    List NostrEvent :=
  match limit with
  | some n => if n = 0 then events else events.take n
  | none => events

/-- Author normalization at the top of `searchCodeSnippets`:
`if (filters.author) filters.author = normalizeToPubkey(filters.author)`,
where a failed normalization throws (modelled as `none`). -/
def normalizeAuthor (env : SearchEnv) (filters : SearchFilters) :
    Option SearchFilters :=
  if jsTruthyStr filters.author then
    match filters.author with
    | some a =>
      match env.normalizePubkey a with
      | some key => some { filters with author := some key }
      | none => none
    | none => some filters
  else some filters

/-- The resolved candidate relay set of a search invocation:
`mergeRelaySets(searchRelays, readRelays, extraRelays)`. -/
def resolvedRelays (env : SearchEnv) (extraRelays : List String) :
    List String :=
  mergeRelaySets [getSearchRelays env, env.readRelays, extraRelays]

/-- `nip50SupportedRelays` of a search invocation. -/
def capableRelays (env : SearchEnv) (extraRelays : List String) :
    List String :=
  filterNIP50SupportedRelays env (resolvedRelays env extraRelays)

/-- `nonNip50Relays` of a search invocation:
`relays.filter((relay) => !nip50SupportedRelays.includes(relay))`. -/
def fallbackRelays (env : SearchEnv) (extraRelays : List String) :
    List String :=
  (resolvedRelays env extraRelays).filter
    (fun r => !(capableRelays env extraRelays).contains r)

/-- Contribution of the capable branch: the NIP-50 query result when the
branch runs (nonempty capable set), otherwise nothing (the branch is
skipped, so `searchResults` gets no entry from it). -/
def capableBranchEvents (env : SearchEnv) (extraRelays : List String) :
    List NostrEvent :=
  if (capableRelays env extraRelays).isEmpty then []
  else env.nip50QueryResult

/-- Contribution of the fallback branch: the locally filtered structural
query result when the branch runs, otherwise nothing. -/
def fallbackBranchEvents (env : SearchEnv) (filters : SearchFilters)
    (extraRelays : List String) : List NostrEvent :=
  if (fallbackRelays env extraRelays).isEmpty then []
  else fallbackSearchEvents filters env.fallbackQueryResult

/-- `searchResults.flat()`: the capable branch promise is pushed first in
search.ts, so its events precede the fallback branch's. -/
def combinedEvents (env : SearchEnv) (filters : SearchFilters)
    (extraRelays : List String) : List NostrEvent :=
  capableBranchEvents env extraRelays ++
    fallbackBranchEvents env filters extraRelays

/-- `searchCodeSnippets` from `src/helpers/search.ts`: normalize the
author, resolve the candidate relay set (hard error when empty),
partition by capability, run both branches, merge, deduplicate by id,
sort newest-first, truncate to the limit, and return the result with
provenance.  The `try`/`catch` in the source logs and rethrows, so every
thrown error propagates. -/
def searchCodeSnippets (env : SearchEnv) (filters : SearchFilters)
    (extraRelays : List String) : Except String SearchResult :=
  match normalizeAuthor env filters with
  | none => Except.error "Invalid pubkey"
  | some f =>
    if (resolvedRelays env extraRelays).isEmpty then
      Except.error "No search relays available"
    else
      let uniqueEvents := dedupById (combinedEvents env f extraRelays)
      let sorted := sortByNewestFirst uniqueEvents
      let finalEvents := applyLimit f.limit sorted
      Except.ok
        { events := finalEvents
          total := finalEvents.length
          searchedRelays := getSearchRelays env
          nip50SupportedRelays := capableRelays env extraRelays }

/-- `getSnippetName` from the snippet accessors:
`event.tags.find((tag) => tag[0] === "name")?.[1]`. -/
def getSnippetName (e : NostrEvent) : Option String :=
  (e.tags.find? (fun t => t.head? == some "name")).bind (fun t => t[1]?)

/-- `getSnippetDescription` from the snippet accessors. -/
def getSnippetDescription (e : NostrEvent) : Option String :=
  (e.tags.find? (fun t => t.head? == some "description")).bind
    (fun t => t[1]?)

/-- JavaScript `a || b` for an optional string left operand: falls
through on `undefined` and on `""`. -/
def jsOrElse (o : Option String) (d : String) : String :=
  match o with
  | some s => if s.isEmpty then d else s
  | none => d

/-- `getSnippetTitle`: `name || description || "Untitled Snippet"`. -/
def getSnippetTitle (e : NostrEvent) : String :=
  jsOrElse (getSnippetName e) (jsOrElse (getSnippetDescription e)
    "Untitled Snippet")

/-- `getSnippetTags`:
`event.tags.filter((t) => t[0] === "t" && t[1]).map((t) => t[1]!.toLocaleLowerCase())`. -/
def getSnippetTags (e : NostrEvent) : List String :=
  (e.tags.filter (fun t => t.head? == some "t" && jsTruthyStr (t[1]?))).map
    (fun t => jsToLower ((t[1]?).getD ""))

/-! ### Properties of identifier deduplication (`dedupById`) -/

/-- All events in a list carry pairwise distinct identifiers. -/
abbrev idsDistinct (l : List NostrEvent) : Prop :=
  l.Pairwise (fun a b => a.id ≠ b.id)

/-- Results are sorted newest-first by creation timestamp. -/
abbrev newestFirst (l : List NostrEvent) : Prop :=
  l.Pairwise (fun a b => b.created_at ≤ a.created_at)

/-- The in-place value replacement performed for a duplicated identifier
never changes the identifier stored at a position. -/
theorem insertById_rep_id (e x : NostrEvent) :
    (if x.id == e.id then e else x).id = x.id := by
  by_cases h : x.id = e.id <;> simp [h]

theorem insertById_idsDistinct (acc : List NostrEvent) (e : NostrEvent)
    (h : idsDistinct acc) : idsDistinct (insertById acc e) := by
  unfold insertById
  split
  · refine List.pairwise_map.mpr ?_
    refine h.imp ?_
    intro a b hab
    rw [insertById_rep_id, insertById_rep_id]
    exact hab
  · rename_i hany
    refine List.pairwise_append.mpr ⟨h, List.pairwise_singleton _ _, ?_⟩
    intro a ha b hb
    rw [List.mem_singleton] at hb
    intro hid
    have hwit : acc.any (fun x => x.id == e.id) = true :=
      List.any_eq_true.mpr ⟨a, ha, by rw [hid, hb]; simp⟩
    exact hany hwit

theorem foldl_insertById_idsDistinct (evs : List NostrEvent)
    (acc : List NostrEvent) (h : idsDistinct acc) :
    idsDistinct (evs.foldl insertById acc) := by
  induction evs generalizing acc with
  | nil => exact h
  | cons v rest ih => exact ih _ (insertById_idsDistinct acc v h)

theorem dedupById_idsDistinct (evs : List NostrEvent) :
    idsDistinct (dedupById evs) :=
  foldl_insertById_idsDistinct evs [] List.Pairwise.nil

/-- In a list with distinct identifiers, searching for the identifier of
a member finds exactly that member. -/
theorem find?_of_idsDistinct (l : List NostrEvent) (e : NostrEvent)
    (hd : idsDistinct l) (he : e ∈ l) :
    l.find? (fun x => x.id == e.id) = some e := by
  induction l with
  | nil => cases he
  | cons a t ih =>
    rcases List.mem_cons.mp he with rfl | ht
    · exact List.find?_cons_of_pos _ (by simp)
    · have hne : a.id ≠ e.id := List.rel_of_pairwise_cons hd ht
      rw [List.find?_cons_of_neg _ (by simp [hne])]
      exact ih hd.of_cons ht

theorem reverse_find?_of_idsDistinct (l : List NostrEvent) (e : NostrEvent)
    (hd : idsDistinct l) (he : e ∈ l) :
    l.reverse.find? (fun x => x.id == e.id) = some e := by
  refine find?_of_idsDistinct l.reverse e ?_ (List.mem_reverse.mpr he)
  refine List.pairwise_reverse.mpr ?_
  exact hd.imp fun hab => Ne.symm hab

/-- Searching the reversed insertion result behaves like searching the
reversed cons: the Map-style in-place update moves the duplicate's value
but not which value is found from the right. -/
theorem find?_reverse_insertById (acc : List NostrEvent) (v : NostrEvent)
    (q : String) :
    (insertById acc v).reverse.find? (fun x => x.id == q)
      = (v :: acc.reverse).find? (fun x => x.id == q) := by
  unfold insertById
  split
  · rename_i hany
    rw [← List.map_reverse, List.find?_map]
    have hpr : ((fun x => x.id == q) ∘ (fun x : NostrEvent =>
        if x.id == v.id then v else x)) = (fun x : NostrEvent => x.id == q) := by
      funext x
      simp only [Function.comp_apply]
      rw [insertById_rep_id]
    rw [hpr]
    by_cases hq : v.id = q
    · rw [List.find?_cons_of_pos _ (by simp [hq])]
      obtain ⟨x0, hx0mem, hx0p⟩ := List.any_eq_true.mp hany
      have hx0id : x0.id = v.id := by simpa using hx0p
      have hsome : (acc.reverse.find? (fun x => x.id == q)).isSome := by
        refine List.find?_isSome.mpr ⟨x0, List.mem_reverse.mpr hx0mem, ?_⟩
        simp [hx0id, hq]
      obtain ⟨y, hy⟩ := Option.isSome_iff_exists.mp hsome
      rw [hy]
      have hyq : y.id = q := by simpa using List.find?_some hy
      have hrep : (if y.id == v.id then v else y) = v := by simp [hyq, hq]
      show some (if y.id == v.id then v else y) = some v
      rw [hrep]
    · rw [List.find?_cons_of_neg _ (by simp [hq])]
      cases hres : acc.reverse.find? (fun x => x.id == q) with
      | none => simp
      | some y =>
        have hyq : y.id = q := by simpa using List.find?_some hres
        have hrep : (if y.id == v.id then v else y) = y := by
          have hne : ¬ y.id = v.id := by rw [hyq]; exact fun hc => hq hc.symm
          simp [hne]
        show some (if y.id == v.id then v else y) = some y
        rw [hrep]
  · rw [List.reverse_append]
    simp

/-- Inserting then continuing to fold is reflected, for identifier
lookups from the right, by consing the new event into the processed
prefix. -/
theorem find?_reverse_transfer (acc : List NostrEvent) (v : NostrEvent)
    (rest : List NostrEvent) (q : String) :
    ((insertById acc v) ++ rest).reverse.find? (fun x => x.id == q)
      = (acc ++ v :: rest).reverse.find? (fun x => x.id == q) := by
  have h1 : ((insertById acc v) ++ rest).reverse
      = rest.reverse ++ (insertById acc v).reverse := by simp
  have h2 : (acc ++ v :: rest).reverse
      = (rest.reverse ++ [v]) ++ acc.reverse := by simp
  rw [h1, h2, List.find?_append, List.find?_append, List.find?_append,
    find?_reverse_insertById,
    show (v :: acc.reverse) = [v] ++ acc.reverse from rfl,
    List.find?_append, Option.or_assoc]

/-- Every member of the Map-style fold is the last occurrence of its
identifier in the concatenation of the processed prefix and the input. -/
theorem mem_foldl_insertById_find? (evs : List NostrEvent)
    (acc : List NostrEvent) (hd : idsDistinct acc) (e : NostrEvent)
    (he : e ∈ evs.foldl insertById acc) :
    (acc ++ evs).reverse.find? (fun x => x.id == e.id) = some e := by
  induction evs generalizing acc with
  | nil =>
    rw [List.append_nil]
    exact reverse_find?_of_idsDistinct acc e hd he
  | cons v rest ih =>
    have h1 := ih (insertById acc v) (insertById_idsDistinct acc v hd) he
    rw [find?_reverse_transfer] at h1
    exact h1

/-- Every member of `dedupById evs` is the last occurrence of its
identifier in `evs`. -/
theorem dedupById_last_occurrence (evs : List NostrEvent) (e : NostrEvent)
    (he : e ∈ dedupById evs) :
    evs.reverse.find? (fun x => x.id == e.id) = some e := by
  have h := mem_foldl_insertById_find? evs [] List.Pairwise.nil e he
  simpa using h

theorem mem_of_mem_dedupById (evs : List NostrEvent) (e : NostrEvent)
    (he : e ∈ dedupById evs) : e ∈ evs := by
  have h := dedupById_last_occurrence evs e he
  exact List.mem_reverse.mp (List.mem_of_find?_eq_some h)

theorem insertById_exists_id (acc : List NostrEvent) (v : NostrEvent)
    (i : String) (h : (∃ x ∈ acc, x.id = i) ∨ i = v.id) :
    ∃ e ∈ insertById acc v, e.id = i := by
  unfold insertById
  split
  · rename_i hany
    rcases h with ⟨x, hx, hxi⟩ | rfl
    · exact ⟨(if x.id == v.id then v else x), List.mem_map_of_mem _ hx,
        by rw [insertById_rep_id]; exact hxi⟩
    · obtain ⟨x0, hx0, hx0b⟩ := List.any_eq_true.mp hany
      have hid : x0.id = v.id := by simpa using hx0b
      exact ⟨(if x0.id == v.id then v else x0), List.mem_map_of_mem _ hx0,
        by rw [insertById_rep_id]; exact hid⟩
  · rcases h with ⟨x, hx, hxi⟩ | rfl
    · exact ⟨x, List.mem_append_left _ hx, hxi⟩
    · exact ⟨v, List.mem_append_right _ (List.mem_singleton_self v), rfl⟩

theorem foldl_insertById_exists_id (evs : List NostrEvent)
    (acc : List NostrEvent) (i : String)
    (h : (∃ x ∈ acc, x.id = i) ∨ (∃ x ∈ evs, x.id = i)) :
    ∃ e ∈ evs.foldl insertById acc, e.id = i := by
  induction evs generalizing acc with
  | nil =>
    rcases h with h | ⟨x, hx, _⟩
    · exact h
    · cases hx
  | cons v rest ih =>
    apply ih (insertById acc v)
    rcases h with h | ⟨x, hx, hxi⟩
    · exact Or.inl (insertById_exists_id acc v i (Or.inl h))
    · rcases List.mem_cons.mp hx with hxv | hxr
      · exact Or.inl (insertById_exists_id acc v i (Or.inr (hxv ▸ hxi).symm))
      · exact Or.inr ⟨x, hxr, hxi⟩

/-- Every identifier occurring in the input survives deduplication. -/
theorem dedupById_exists_id (evs : List NostrEvent) (x : NostrEvent)
    (hx : x ∈ evs) : ∃ e ∈ dedupById evs, e.id = x.id :=
  foldl_insertById_exists_id evs [] x.id (Or.inr ⟨x, hx, rfl⟩)

/-! ### Properties of the newest-first sort and the final limit -/

theorem insertByNewest_perm (e : NostrEvent) (l : List NostrEvent) :
    (insertByNewest e l).Perm (e :: l) := by
  induction l with
  | nil => exact List.Perm.refl _
  | cons x xs ih =>
    unfold insertByNewest
    split
    · exact List.Perm.refl _
    · exact (ih.cons x).trans (List.Perm.swap e x xs)

theorem sortByNewestFirst_perm (l : List NostrEvent) :
    (sortByNewestFirst l).Perm l := by
  induction l with
  | nil => exact List.Perm.refl _
  | cons a t ih =>
    exact (insertByNewest_perm a (sortByNewestFirst t)).trans (ih.cons a)

theorem insertByNewest_sorted (e : NostrEvent) (l : List NostrEvent)
    (h : newestFirst l) : newestFirst (insertByNewest e l) := by
  induction l with
  | nil => simp [insertByNewest]
  | cons x xs ih =>
    unfold insertByNewest
    split
    · rename_i hle
      refine List.Pairwise.cons ?_ h
      intro y hy
      rcases List.mem_cons.mp hy with rfl | hyx
      · exact hle
      · exact le_trans (List.rel_of_pairwise_cons h hyx) hle
    · rename_i hgt
      push_neg at hgt
      refine List.Pairwise.cons ?_ (ih h.of_cons)
      intro y hy
      have hy2 : y ∈ e :: xs := (insertByNewest_perm e xs).mem_iff.mp hy
      rcases List.mem_cons.mp hy2 with rfl | hyx
      · exact le_of_lt hgt
      · exact List.rel_of_pairwise_cons h hyx

theorem sortByNewestFirst_sorted (l : List NostrEvent) :
    newestFirst (sortByNewestFirst l) := by
  induction l with
  | nil => exact List.Pairwise.nil
  | cons a t ih => exact insertByNewest_sorted a _ ih

theorem applyLimit_sublist (limit : Option Nat) (l : List NostrEvent) :
    (applyLimit limit l).Sublist l := by
  cases limit with
  | none => exact List.Sublist.refl l
  | some n =>
    by_cases hn : n = 0
    · simp [applyLimit, hn]
    · simp only [applyLimit, if_neg hn]
      exact List.take_sublist n l

theorem applyLimit_length_le (n : Nat) (hn : n ≠ 0) (l : List NostrEvent) :
    (applyLimit (some n) l).length ≤ n := by
  simp only [applyLimit, if_neg hn]
  simp [List.length_take]

theorem applyLimit_zero (l : List NostrEvent) : applyLimit (some 0) l = l := by
  simp [applyLimit]

/-! ### Unfolding the orchestrator -/

theorem normalizeAuthor_some (env : SearchEnv) (f fn : SearchFilters)
    (h : normalizeAuthor env f = some fn) :
    fn.query = f.query ∧ fn.limit = f.limit := by
  unfold normalizeAuthor at h
  split at h
  · split at h
    · split at h
      · injection h with h; subst h; exact ⟨rfl, rfl⟩
      · cases h
    · injection h with h; subst h; exact ⟨rfl, rfl⟩
  · injection h with h; subst h; exact ⟨rfl, rfl⟩

/-- The two branch contributions depend on the filter only through its
free-text query. -/
theorem combinedEvents_query_congr (env : SearchEnv) (f g : SearchFilters)
    (extras : List String) (hq : f.query = g.query) :
    combinedEvents env f extras = combinedEvents env g extras := by
  unfold combinedEvents fallbackBranchEvents fallbackSearchEvents
  rw [hq]

/-- Shape of every successful `searchCodeSnippets` call: the returned
events are the limit applied to the newest-first sort of the
id-deduplicated concatenation of the two branch contributions, and the
provenance fields are the resolved search relays and the probed capable
subset. -/
theorem searchCodeSnippets_ok_inv (env : SearchEnv) (f : SearchFilters)
    (extras : List String) (res : SearchResult)
    (h : searchCodeSnippets env f extras = Except.ok res) :
    res.events = applyLimit f.limit
        (sortByNewestFirst (dedupById (combinedEvents env f extras)))
      ∧ res.total = res.events.length
      ∧ res.searchedRelays = getSearchRelays env
      ∧ res.nip50SupportedRelays = capableRelays env extras := by
  unfold searchCodeSnippets at h
  split at h
  · cases h
  · rename_i fn hn
    split at h
    · cases h
    · dsimp only at h
      injection h with h
      subst h
      obtain ⟨hq, hl⟩ := normalizeAuthor_some env f fn hn
      refine ⟨?_, rfl, rfl, rfl⟩
      dsimp only
      rw [combinedEvents_query_congr env fn f extras hq, hl]

/-! ### Spec-side formulations used by the claims -/

/-- Substring-match predicate following the claim's own words: the query
appears, case-insensitively, as a substring of the record body, of the
distinguished title tag value, or of any tag value of the record (every
element of a tag after its name). -/
def claimC7Match (q : String) (e : NostrEvent) : Bool :=
  let query := jsToLower q
  jsIncludes (jsToLower e.content) query ||
    jsIncludes (((getTagValue e "title").map jsToLower).getD "") query ||
    (e.tags.foldr (fun t acc => t.tail ++ acc) []).any
      (fun v => jsIncludes (jsToLower v) query)

/-- Substring-match predicate of the amended claim, stated relationally:
the lowercased query is an infix of the lowercased body, of the lowercased
first title-tag value, or of a lowercased `t`-tag value (a `t` tag with no
value contributing the empty string). -/
def amendedC7Match (q : String) (e : NostrEvent) : Prop :=
  let needle := (jsToLower q).toList
  needle <:+: (jsToLower e.content).toList
    ∨ needle <:+: (((getTagValue e "title").map jsToLower).getD "").toList
    ∨ ∃ t ∈ e.tags, t.head? = some "t"
        ∧ needle <:+: (((t[1]?).map jsToLower).getD "").toList

theorem jsIncludes_iff (haystack needle : String) :
    jsIncludes haystack needle = true ↔ needle.toList <:+: haystack.toList := by
  unfold jsIncludes
  exact decide_eq_true_iff

theorem eventMatchesQuery_iff (q : String) (e : NostrEvent) :
    eventMatchesQuery q e = true ↔ amendedC7Match q e := by
  unfold eventMatchesQuery amendedC7Match
  dsimp only
  constructor
  · intro h
    rcases (Bool.or_eq_true _ _).mp h with h12 | h3
    · rcases (Bool.or_eq_true _ _).mp h12 with h1 | h2
      · exact Or.inl ((jsIncludes_iff _ _).mp h1)
      · exact Or.inr (Or.inl ((jsIncludes_iff _ _).mp h2))
    · obtain ⟨x, hx, hpx⟩ := List.any_eq_true.mp h3
      obtain ⟨t, htf, rfl⟩ := List.mem_map.mp hx
      have htags := List.mem_filter.mp htf
      have hname : t.head? = some "t" := by simpa using htags.2
      exact Or.inr (Or.inr ⟨t, htags.1, hname, (jsIncludes_iff _ _).mp hpx⟩)
  · intro h
    rcases h with h1 | h2 | ⟨t, ht, hname, hinf⟩
    · exact (Bool.or_eq_true _ _).mpr (Or.inl ((Bool.or_eq_true _ _).mpr
        (Or.inl ((jsIncludes_iff _ _).mpr h1))))
    · exact (Bool.or_eq_true _ _).mpr (Or.inl ((Bool.or_eq_true _ _).mpr
        (Or.inr ((jsIncludes_iff _ _).mpr h2))))
    · refine (Bool.or_eq_true _ _).mpr (Or.inr (List.any_eq_true.mpr
        ⟨((t[1]?).map jsToLower).getD "", ?_,
          (jsIncludes_iff _ _).mpr hinf⟩))
      exact List.mem_map.mpr ⟨t, List.mem_filter.mpr ⟨ht, by simp [hname]⟩, rfl⟩

/-- First value of the first `t` tag, lowercased, of every `t` tag whose
value is present and nonempty — the amended characterization of
`getSnippetTags`, written as a single `filterMap` pass. -/
def categoryTagValue (t : List String) : Option String :=
  if t.head? = some "t" then
    match t[1]? with
    | some v => if v = "" then none else some (jsToLower v)
    | none => none
  else none

def categoryTagValues (e : NostrEvent) : List String :=
  e.tags.filterMap categoryTagValue

theorem getSnippetTags_eq_categoryTagValues (e : NostrEvent) :
    getSnippetTags e = categoryTagValues e := by
  unfold getSnippetTags categoryTagValues
  induction e.tags with
  | nil => rfl
  | cons t rest ih =>
    by_cases hname : t.head? = some "t"
    · cases hv : t[1]? with
      | none =>
        have hg : categoryTagValue t = none := by
          unfold categoryTagValue
          rw [if_pos hname, hv]
        rw [List.filter_cons_of_neg (by simp [hname, hv, jsTruthyStr]),
          List.filterMap_cons_none hg, ih]
      | some v =>
        by_cases hemp : v = ""
        · have hg : categoryTagValue t = none := by
            unfold categoryTagValue
            rw [if_pos hname, hv]
            simp [hemp]
          rw [List.filter_cons_of_neg
              (by simp [hname, hv, jsTruthyStr, hemp]; decide),
            List.filterMap_cons_none hg, ih]
        · have hie : v.isEmpty = false := by
            cases hb : v.isEmpty
            · rfl
            · exact absurd ((String.isEmpty_iff v).mp hb) hemp
          have hg : categoryTagValue t = some (jsToLower v) := by
            unfold categoryTagValue
            rw [if_pos hname, hv]
            exact if_neg hemp
          rw [List.filter_cons_of_pos (by simp [hname, hv, jsTruthyStr, hie]),
            List.filterMap_cons_some hg, List.map_cons, ih]
          congr 1
          simp [hv]
    · have hg : categoryTagValue t = none := by
        unfold categoryTagValue
        rw [if_neg hname]
      rw [List.filter_cons_of_neg (by simp [hname]),
        List.filterMap_cons_none hg, ih]

theorem jsOrElse_of_truthy (o : Option String) (d s : String)
    (h : o = some s) (hne : s ≠ "") : jsOrElse o d = s := by
  subst h
  unfold jsOrElse
  dsimp only
  have hie : s.isEmpty = false := by
    cases hb : s.isEmpty
    · rfl
    · exact absurd ((String.isEmpty_iff s).mp hb) hne
  rw [if_neg (by simp [hie])]

theorem jsOrElse_of_falsy (o : Option String) (d : String)
    (h : jsTruthyStr o = false) : jsOrElse o d = d := by
  cases o with
  | none => rfl
  | some s =>
    unfold jsTruthyStr at h
    dsimp only at h
    unfold jsOrElse
    dsimp only
    have hie : s.isEmpty = true := by
      cases hb : s.isEmpty
      · simp [hb] at h
      · rfl
    rw [if_pos hie]

/-! ### Claims -/

/-- C2: any relay whose capability probe fails to produce a descriptor is
excluded from the capable set and lands in the fallback partition, and the
probe failure never turns the surrounding search call into an error. -/
theorem claim_C2 (env : SearchEnv) (extras : List String) (r : String)
    (f fn : SearchFilters)
    (hr : r ∈ resolvedRelays env extras)
    (hfail : env.relayInfo r = none)
    (hn : normalizeAuthor env f = some fn) :
    r ∉ capableRelays env extras
      ∧ r ∈ fallbackRelays env extras
      ∧ (searchCodeSnippets env f extras).toOption.isSome = true := by
  have hcap : relayIsCapable env r = false := by
    unfold relayIsCapable
    rw [hfail]
  have h1 : r ∉ capableRelays env extras := by
    intro hmem
    unfold capableRelays filterNIP50SupportedRelays at hmem
    have h2 := (List.mem_filter.mp hmem).2
    rw [hcap] at h2
    cases h2
  have hcf : (capableRelays env extras).contains r = false := by
    cases hb : (capableRelays env extras).contains r
    · rfl
    · exact absurd (List.elem_iff.mp hb) h1
  refine ⟨h1, ?_, ?_⟩
  · unfold fallbackRelays
    exact List.mem_filter.mpr ⟨hr, by rw [hcf]; rfl⟩
  · unfold searchCodeSnippets
    rw [hn]
    have hne : (resolvedRelays env extras).isEmpty = false := by
      cases hb : (resolvedRelays env extras).isEmpty
      · rfl
      · rw [List.isEmpty_iff.mp hb] at hr
        cases hr
    dsimp only
    rw [if_neg (by simp [hne])]
    rfl

/-- C4: the search orchestrator yields a result (rather than an error)
exactly when the resolved candidate relay set is nonempty; with the
branch queries and probes modelled as oracles whose failures are empty
outcomes, nothing else can fail. -/
theorem claim_C4 (env : SearchEnv) (f fn : SearchFilters)
    (extras : List String) (hn : normalizeAuthor env f = some fn) :
    (searchCodeSnippets env f extras).toOption.isSome = true
      ↔ resolvedRelays env extras ≠ [] := by
  unfold searchCodeSnippets
  rw [hn]
  dsimp only
  by_cases hr : (resolvedRelays env extras).isEmpty = true
  · rw [if_pos hr]
    have hemp := List.isEmpty_iff.mp hr
    simp [Except.toOption, hemp]
  · rw [if_neg hr]
    constructor
    · intro _
      intro hc
      exact hr (List.isEmpty_iff.mpr hc)
    · intro _
      rfl

/-- C7 (amended): under the substring strategy a record is kept iff the
query occurs case-insensitively in the body, the first title-tag value, or
one of the values of tags named `t` — not arbitrary tag values. -/
theorem claim_C7_amended (f : SearchFilters) (evs : List NostrEvent)
    (e : NostrEvent) :
    e ∈ fallbackSearchEvents f evs ↔ e ∈ evs ∧ amendedC7Match f.query e := by
  unfold fallbackSearchEvents
  rw [List.mem_filter]
  exact and_congr_right fun _ => eventMatchesQuery_iff f.query e

def evC7 : NostrEvent :=
  { id := "c7", pubkey := "pk", created_at := 10, kind := 1337,
    tags := [["name", "hook"]], content := "x", sig := "sig" }

def fC7 : SearchFilters :=
  { query := "hook", tags := none, language := none, author := none,
    limit := none }

/-- C7 counterexample: the query "hook" occurs in a tag value (the `name`
tag) of this record, so the claim as stated requires the substring
strategy to return it; the code inspects only `t`-named tag values and
drops the record. -/
theorem claim_C7_counterexample :
    claimC7Match fC7.query evC7 = true
      ∧ fallbackSearchEvents fC7 [evC7] = [] := by
  constructor
  · rfl
  · rfl

/-- C8: the substring local match engine is a pure function of the record
list and the query (identical output on any two runs with equal inputs —
it reads no other filter field), and it returns a sublist of its input:
every output record is one of the input records, unmodified, in input
order. -/
theorem claim_C8 (f g : SearchFilters) (evs : List NostrEvent)
    (hq : f.query = g.query) :
    fallbackSearchEvents f evs = fallbackSearchEvents g evs
      ∧ (fallbackSearchEvents f evs).Sublist evs := by
  constructor
  · unfold fallbackSearchEvents
    rw [hq]
  · exact List.filter_sublist evs

def evC8a : NostrEvent :=
  { id := "c8a", pubkey := "pk", created_at := 5, kind := 1337,
    tags := [["t", "sorting"]], content := "merge sort impl", sig := "s" }

def evC8b : NostrEvent :=
  { id := "c8b", pubkey := "pk", created_at := 7, kind := 1337,
    tags := [], content := "binary heap", sig := "s" }

def fC8 : SearchFilters :=
  { query := "sort", tags := none, language := none, author := none,
    limit := some 5 }

def gC8 : SearchFilters :=
  { query := "sort", tags := some ["x"], language := some "ts",
    author := some "deadbeef", limit := none }

theorem claim_C8_witness :
    fallbackSearchEvents fC8 [evC8a, evC8b]
        = fallbackSearchEvents gC8 [evC8a, evC8b]
      ∧ (fallbackSearchEvents fC8 [evC8a, evC8b]).Sublist [evC8a, evC8b] :=
  claim_C8 fC8 gC8 [evC8a, evC8b] rfl

/-- C9 (amended): the title accessor returns the first name-tag value
when that value is present and nonempty, else the first description-tag
value when present and nonempty, else the literal "Untitled Snippet"
(JavaScript `||` also falls through on the empty string); the
category-tag accessor returns the values of `t` tags that are present and
nonempty, lowercased, and the empty list when none qualify. -/
theorem claim_C9_amended (e : NostrEvent) :
    (∀ s, getSnippetName e = some s → s ≠ "" → getSnippetTitle e = s)
      ∧ (jsTruthyStr (getSnippetName e) = false →
          ∀ s, getSnippetDescription e = some s → s ≠ "" →
            getSnippetTitle e = s)
      ∧ (jsTruthyStr (getSnippetName e) = false →
          jsTruthyStr (getSnippetDescription e) = false →
          getSnippetTitle e = "Untitled Snippet")
      ∧ getSnippetTags e = categoryTagValues e := by
  refine ⟨?_, ?_, ?_, getSnippetTags_eq_categoryTagValues e⟩
  · intro s hs hne
    unfold getSnippetTitle
    exact jsOrElse_of_truthy _ _ s hs hne
  · intro hfalse s hs hne
    unfold getSnippetTitle
    rw [jsOrElse_of_falsy _ _ hfalse]
    exact jsOrElse_of_truthy _ _ s hs hne
  · intro hfn hfd
    unfold getSnippetTitle
    rw [jsOrElse_of_falsy _ _ hfn, jsOrElse_of_falsy _ _ hfd]

def evC9 : NostrEvent :=
  { id := "c9", pubkey := "pk", created_at := 1, kind := 1337,
    tags := [["name", ""], ["description", "readme helper"]],
    content := "", sig := "s" }

def evC9t : NostrEvent :=
  { id := "c9t", pubkey := "pk", created_at := 1, kind := 1337,
    tags := [["t", ""]], content := "", sig := "s" }

/-- C9 counterexample: a record whose first name-tag value is present
(the empty string) gets the description as its title, not that name-tag
value; and a record carrying one `t` tag still yields an empty
category-tag list because the tag's value is the empty string. -/
theorem claim_C9_counterexample :
    getSnippetName evC9 = some ""
      ∧ getSnippetTitle evC9 = "readme helper"
      ∧ (evC9t.tags.filter (fun t => t.head? == some "t")).length = 1
      ∧ getSnippetTags evC9t = [] := by
  refine ⟨rfl, rfl, rfl, rfl⟩

def evC9w : NostrEvent :=
  { id := "c9w", pubkey := "pk", created_at := 2, kind := 1337,
    tags := [["l", "python"], ["name", "Quick Sort"], ["t", "algorithm"],
      ["t", "sort"]],
    content := "def quicksort(): pass", sig := "s" }

theorem claim_C9_witness :
    getSnippetTitle evC9w = "Quick Sort"
      ∧ getSnippetTags evC9w = ["algorithm", "sort"] := by
  have h := claim_C9_amended evC9w
  refine ⟨h.1 "Quick Sort" rfl (by decide), ?_⟩
  rw [h.2.2.2]
  rfl

/-- C1 (amended): the merged result of a successful search carries
pairwise distinct identifiers; the copy kept for a duplicated identifier
is the last occurrence in the concatenation of the capable-branch and
fallback-branch lists (`new Map(...)` overwrites the value stored for an
existing key); and every identifier of the concatenation survives the
deduplication. -/
theorem claim_C1_amended (env : SearchEnv) (f : SearchFilters)
    (extras : List String) (res : SearchResult)
    (h : searchCodeSnippets env f extras = Except.ok res) :
    idsDistinct res.events
      ∧ (∀ e ∈ res.events,
          (combinedEvents env f extras).reverse.find? (fun x => x.id == e.id)
            = some e)
      ∧ (∀ x ∈ combinedEvents env f extras,
          ∃ e ∈ dedupById (combinedEvents env f extras), e.id = x.id) := by
  obtain ⟨hev, -, -, -⟩ := searchCodeSnippets_ok_inv env f extras res h
  refine ⟨?_, ?_, ?_⟩
  · rw [hev]
    have hdedup := dedupById_idsDistinct (combinedEvents env f extras)
    have hsorted : idsDistinct
        (sortByNewestFirst (dedupById (combinedEvents env f extras))) :=
      ((sortByNewestFirst_perm _).pairwise_iff
        (fun hab => Ne.symm hab)).mpr hdedup
    exact hsorted.sublist (applyLimit_sublist _ _)
  · intro e he
    rw [hev] at he
    have h1 := (applyLimit_sublist _ _).subset he
    have h2 := (sortByNewestFirst_perm _).mem_iff.mp h1
    exact dedupById_last_occurrence _ e h2
  · intro x hx
    exact dedupById_exists_id _ x hx

def evC1cap : NostrEvent :=
  { id := "dup", pubkey := "pk", created_at := 100, kind := 1337,
    tags := [], content := "capable copy", sig := "s" }

def evC1fb : NostrEvent :=
  { id := "dup", pubkey := "pk", created_at := 100, kind := 1337,
    tags := [], content := "fallback copy", sig := "s" }

def envC1 : SearchEnv :=
  { userSearchRelays := ["wss://cap1"], readRelays := ["wss://fb1"],
    relayInfo := fun r =>
      if r = "wss://cap1" then some { supported_nips := some [50] } else none,
    nip50QueryResult := [evC1cap], fallbackQueryResult := [evC1fb],
    normalizePubkey := fun _ => none }

def fC1 : SearchFilters :=
  { query := "copy", tags := none, language := none, author := none,
    limit := none }

/-- C1 counterexample: both branches contribute a record with identifier
"dup"; the first occurrence in the concatenation is the capable branch's
copy, yet the merged output keeps the fallback branch's copy — the last
occurrence — because `Map.set` overwrites the stored value. -/
theorem claim_C1_counterexample :
    combinedEvents envC1 fC1 [] = [evC1cap, evC1fb]
      ∧ evC1cap.id = evC1fb.id
      ∧ evC1cap ≠ evC1fb
      ∧ (searchCodeSnippets envC1 fC1 []).toOption.map SearchResult.events
          = some [evC1fb] := by
  refine ⟨rfl, rfl, by decide, rfl⟩

def resC1 : SearchResult :=
  { events := [evC1fb], total := 1, searchedRelays := ["wss://cap1"],
    nip50SupportedRelays := ["wss://cap1"] }

theorem claim_C1_witness :
    idsDistinct resC1.events
      ∧ (∀ e ∈ resC1.events,
          (combinedEvents envC1 fC1 []).reverse.find? (fun x => x.id == e.id)
            = some e)
      ∧ (∀ x ∈ combinedEvents envC1 fC1 [],
          ∃ e ∈ dedupById (combinedEvents envC1 fC1 []), e.id = x.id) :=
  claim_C1_amended envC1 fC1 [] resC1 rfl

/-- C3: with a positive requested limit `n`, a successful search returns
at most `n` events, each drawn from the deduplicated merge of the two
branch contributions, and the returned list is exactly the limit applied
once — after dedup and sort — to that merged list (no per-branch
truncation exists in the pipeline). -/
theorem claim_C3 (env : SearchEnv) (f : SearchFilters) (extras : List String)
    (res : SearchResult) (n : Nat) (hl : f.limit = some n) (hn : 0 < n)
    (h : searchCodeSnippets env f extras = Except.ok res) :
    res.events.length ≤ n
      ∧ (∀ e ∈ res.events, e ∈ dedupById (combinedEvents env f extras))
      ∧ res.events = applyLimit f.limit
          (sortByNewestFirst (dedupById (combinedEvents env f extras))) := by
  obtain ⟨hev, -, -, -⟩ := searchCodeSnippets_ok_inv env f extras res h
  refine ⟨?_, ?_, hev⟩
  · rw [hev, hl]
    exact applyLimit_length_le n (Nat.pos_iff_ne_zero.mp hn) _
  · intro e he
    rw [hev] at he
    have h1 := (applyLimit_sublist _ _).subset he
    exact (sortByNewestFirst_perm _).mem_iff.mp h1

def evC3a : NostrEvent :=
  { id := "c3a", pubkey := "pk", created_at := 50, kind := 1337,
    tags := [], content := "q alpha", sig := "s" }

def evC3b : NostrEvent :=
  { id := "c3b", pubkey := "pk", created_at := 10, kind := 1337,
    tags := [], content := "q beta", sig := "s" }

def evC3c : NostrEvent :=
  { id := "c3c", pubkey := "pk", created_at := 40, kind := 1337,
    tags := [], content := "q gamma", sig := "s" }

def evC3d : NostrEvent :=
  { id := "c3d", pubkey := "pk", created_at := 60, kind := 1337,
    tags := [], content := "q delta", sig := "s" }

def evC3e : NostrEvent :=
  { id := "c3e", pubkey := "pk", created_at := 5, kind := 1337,
    tags := [], content := "q epsilon", sig := "s" }

def envC3 : SearchEnv :=
  { userSearchRelays := ["wss://cap3"], readRelays := ["wss://fb3"],
    relayInfo := fun r =>
      if r = "wss://cap3" then some { supported_nips := some [1, 50] }
      else none,
    nip50QueryResult := [evC3a, evC3b],
    fallbackQueryResult := [evC3c, evC3d, evC3e],
    normalizePubkey := fun _ => none }

def fC3 : SearchFilters :=
  { query := "q", tags := none, language := none, author := none,
    limit := some 2 }

def resC3 : SearchResult :=
  { events := [evC3d, evC3a], total := 2, searchedRelays := ["wss://cap3"],
    nip50SupportedRelays := ["wss://cap3"] }

theorem claim_C3_witness :
    resC3.events.length ≤ 2
      ∧ (∀ e ∈ resC3.events, e ∈ dedupById (combinedEvents envC3 fC3 []))
      ∧ resC3.events = applyLimit fC3.limit
          (sortByNewestFirst (dedupById (combinedEvents envC3 fC3 []))) :=
  claim_C3 envC3 fC3 [] resC3 2 rfl (by decide) rfl

/-- C5 (amended): every successful search returns its merged output in a
single global ordering — newest first by creation timestamp across both
branches — so fallback-branch results do not retain their match-engine
order when it disagrees with recency. -/
theorem claim_C5_amended (env : SearchEnv) (f : SearchFilters)
    (extras : List String) (res : SearchResult)
    (h : searchCodeSnippets env f extras = Except.ok res) :
    newestFirst res.events := by
  obtain ⟨hev, -, -, -⟩ := searchCodeSnippets_ok_inv env f extras res h
  rw [hev]
  exact (sortByNewestFirst_sorted _).sublist (applyLimit_sublist _ _)

def evC5old : NostrEvent :=
  { id := "c5old", pubkey := "pk", created_at := 10, kind := 1337,
    tags := [], content := "q old", sig := "s" }

def evC5new : NostrEvent :=
  { id := "c5new", pubkey := "pk", created_at := 20, kind := 1337,
    tags := [], content := "q new", sig := "s" }

def envC5 : SearchEnv :=
  { userSearchRelays := ["wss://fb5"], readRelays := [],
    relayInfo := fun _ => none,
    nip50QueryResult := [], fallbackQueryResult := [evC5old, evC5new],
    normalizePubkey := fun _ => none }

def fC5 : SearchFilters :=
  { query := "q", tags := none, language := none, author := none,
    limit := none }

/-- C5 counterexample: the fallback branch produces its records in the
order [older, newer]; the merged output re-sorts them newest-first to
[newer, older], so the fallback branch's order is not retained through
the merge step. -/
theorem claim_C5_counterexample :
    fallbackBranchEvents envC5 fC5 [] = [evC5old, evC5new]
      ∧ (searchCodeSnippets envC5 fC5 []).toOption.map SearchResult.events
          = some [evC5new, evC5old] := by
  refine ⟨rfl, rfl⟩

def resC5 : SearchResult :=
  { events := [evC5new, evC5old], total := 2,
    searchedRelays := ["wss://fb5"], nip50SupportedRelays := [] }

theorem claim_C5_witness : newestFirst resC5.events :=
  claim_C5_amended envC5 fC5 [] resC5 rfl

def envC2 : SearchEnv :=
  { userSearchRelays := ["wss://up2"], readRelays := ["wss://dead2"],
    relayInfo := fun r =>
      if r = "wss://up2" then some { supported_nips := some [50] } else none,
    nip50QueryResult := [], fallbackQueryResult := [],
    normalizePubkey := fun _ => none }

def fC2 : SearchFilters :=
  { query := "q", tags := none, language := none, author := none,
    limit := none }

theorem claim_C2_witness :
    "wss://dead2" ∉ capableRelays envC2 []
      ∧ "wss://dead2" ∈ fallbackRelays envC2 []
      ∧ (searchCodeSnippets envC2 fC2 []).toOption.isSome = true :=
  claim_C2 envC2 [] "wss://dead2" fC2 fC2 (by decide) rfl rfl

def envC4 : SearchEnv :=
  { userSearchRelays := [], readRelays := [],
    relayInfo := fun _ => none,
    nip50QueryResult := [], fallbackQueryResult := [],
    normalizePubkey := fun _ => none }

def fC4 : SearchFilters :=
  { query := "network is down", tags := none, language := none,
    author := none, limit := none }

theorem claim_C4_witness :
    (searchCodeSnippets envC4 fC4 []).toOption.isSome = true :=
  (claim_C4 envC4 fC4 fC4 [] rfl).mpr (by decide)

/-- C6 (amended): the provenance of a successful search lists as
`searchedRelays` only the resolved search-relay list (the user's search
relays, or the hardcoded defaults) — read relays and caller-supplied
extras are queried but omitted from that field — while
`nip50SupportedRelays` is exactly the subset of the full merged candidate
set that the prober confirmed capable. -/
theorem claim_C6_amended (env : SearchEnv) (f : SearchFilters)
    (extras : List String) (res : SearchResult)
    (h : searchCodeSnippets env f extras = Except.ok res) :
    res.searchedRelays = getSearchRelays env
      ∧ (∀ r, r ∈ res.nip50SupportedRelays
          ↔ r ∈ resolvedRelays env extras ∧ relayIsCapable env r = true) := by
  obtain ⟨-, -, hsr, hcap⟩ := searchCodeSnippets_ok_inv env f extras res h
  refine ⟨hsr, ?_⟩
  intro r
  rw [hcap]
  unfold capableRelays filterNIP50SupportedRelays
  exact List.mem_filter

def envC6 : SearchEnv :=
  { userSearchRelays := ["wss://s6"], readRelays := ["wss://r6"],
    relayInfo := fun _ => none,
    nip50QueryResult := [], fallbackQueryResult := [],
    normalizePubkey := fun _ => none }

def fC6 : SearchFilters :=
  { query := "prov", tags := none, language := none, author := none,
    limit := none }

/-- C6 counterexample: the full merged candidate set queried by this call
is [s6, r6, x6], but the returned provenance lists only the search-relay
list [s6]; the read relay and the caller extra are missing even though
they were searched. -/
theorem claim_C6_counterexample :
    resolvedRelays envC6 ["wss://x6"] = ["wss://s6", "wss://r6", "wss://x6"]
      ∧ (searchCodeSnippets envC6 fC6 ["wss://x6"]).toOption.map
          SearchResult.searchedRelays = some ["wss://s6"] := by
  refine ⟨rfl, rfl⟩

def resC6 : SearchResult :=
  { events := [], total := 0, searchedRelays := ["wss://s6"],
    nip50SupportedRelays := [] }

theorem claim_C6_witness :
    resC6.searchedRelays = getSearchRelays envC6
      ∧ (∀ r, r ∈ resC6.nip50SupportedRelays
          ↔ r ∈ resolvedRelays envC6 ["wss://x6"]
            ∧ relayIsCapable envC6 r = true) :=
  claim_C6_amended envC6 fC6 ["wss://x6"] resC6 rfl

/-- C10: a present-but-zero limit is falsy in the JavaScript truthiness
test guarding the final `slice`, so no truncation happens and the full
merged, deduplicated, sorted list is returned — not zero records. -/
theorem claim_C10 (env : SearchEnv) (f : SearchFilters)
    (extras : List String) (res : SearchResult) (hl : f.limit = some 0)
    (h : searchCodeSnippets env f extras = Except.ok res) :
    res.events = sortByNewestFirst (dedupById (combinedEvents env f extras)) := by
  obtain ⟨hev, -, -, -⟩ := searchCodeSnippets_ok_inv env f extras res h
  rw [hev, hl, applyLimit_zero]

def evC10a : NostrEvent :=
  { id := "c10a", pubkey := "pk", created_at := 30, kind := 1337,
    tags := [], content := "zed one", sig := "s" }

def evC10b : NostrEvent :=
  { id := "c10b", pubkey := "pk", created_at := 40, kind := 1337,
    tags := [], content := "zed two", sig := "s" }

def envC10 : SearchEnv :=
  { userSearchRelays := ["wss://fb10"], readRelays := [],
    relayInfo := fun _ => none,
    nip50QueryResult := [], fallbackQueryResult := [evC10a, evC10b],
    normalizePubkey := fun _ => none }

def fC10 : SearchFilters :=
  { query := "zed", tags := none, language := none, author := none,
    limit := some 0 }

def resC10 : SearchResult :=
  { events := [evC10b, evC10a], total := 2, searchedRelays := ["wss://fb10"],
    nip50SupportedRelays := [] }

theorem claim_C10_witness :
    resC10.events = sortByNewestFirst (dedupById (combinedEvents envC10 fC10 []))
      ∧ resC10.events.length = 2 :=
  ⟨claim_C10 envC10 fC10 [] resC10 rfl rfl, rfl⟩
